import Mathlib

set_option autoImplicit false

namespace StockInsights

/-!
Shallow embedding of the stock-market-insights data core:
  * the incremental sync controller of `src/data_fetcher.py`
    (`get_latest_date`, `fetch_yfinance`, `insert_prices`, `run_fetching`);
  * the indicator library of `src/calculations.py`
    (`compute_sma`, `detect_abrupt_changes`, `add_technical_indicators`,
     `volatility_and_risk`, `correlation_analysis`).

Dates are day numbers (days since 1970-01-01) in `ℤ`; prices are `ℚ`;
a pandas `NaN` cell is `Option.none`.
-/

universe u v

/-- Update-or-insert on an association list, modelling MongoDB
`update_one(filter, {"$set": doc}, upsert=True)` keyed writes: the first
entry whose key matches is replaced in place; if none matches, the new
pair is appended. -/
def upsert {K : Type u} {V : Type v} [DecidableEq K] : List (K × V) → K → V → List (K × V)
  | [], k, v => [(k, v)]
  | p :: rest, k, v => if p.1 = k then (k, v) :: rest else p :: upsert rest k v

/-- Point lookup by key (first match), modelling a `find_one` on the key. -/
def lookupK {K : Type u} {V : Type v} [DecidableEq K] : List (K × V) → K → Option V
  | [], _ => none
  | p :: rest, k => if p.1 = k then some p.2 else lookupK rest k

/-- The keys of an association list, in storage order. -/
def keysOf {K : Type u} {V : Type v} (s : List (K × V)) : List K :=
  s.map Prod.fst

/-- Fold a batch of keyed writes over a store, one `upsert` per pair,
in batch order (the row loop of `insert_prices`). -/
def upsertAll {K : Type u} {V : Type v} [DecidableEq K] (s : List (K × V)) (l : List (K × V)) :
    List (K × V) :=
  l.foldl (fun acc p => upsert acc p.1 p.2) s

/-- A stored price-bar document as built by `insert_prices`
(`src/data_fetcher.py`): ticker, trade date, OHLC prices (coercion
failure gives `none`, the stored null) and volume. -/
structure Doc where
  dticker : String
  ddate : ℤ
  dopen : Option ℚ
  dhigh : Option ℚ
  dlow : Option ℚ
  dclose : Option ℚ
  dvolume : ℤ
  deriving DecidableEq, Repr

/-- A raw provider cell as seen by `safe_float` / `safe_int`: a plain
number, a pandas Series of values (multi-index column), a missing value
(`row.get` returned `None`), or a value that fails numeric conversion. -/
inductive RawCell where
  | fnum (q : ℚ)
  | fser (vals : List (Option ℚ))
  | missing
  | bad
  deriving DecidableEq, Repr

/-- `safe_float` of `insert_prices`: scalars pass through, a Series is
reduced to its first non-null entry (`dropna` then `iloc[0]`, empty
gives `None`), anything unconvertible gives `None`. -/
def safe_float : RawCell → Option ℚ
  | .fnum q => some q
  | .fser vals => vals.reduceOption.head?
  | .missing => none
  | .bad => none

/-- `safe_int` of `insert_prices`: like `safe_float` but truncating to
an integer and defaulting to `0` instead of null. -/
def safe_int : RawCell → ℤ
  | .fnum q => Int.tdiv q.num q.den
  | .fser vals =>
    match vals.reduceOption.head? with
    | some q => Int.tdiv q.num q.den
    | none => 0
  | .missing => 0
  | .bad => 0

/-- One row of the dataframe returned by the provider: a timestamp
(`none` models `NaT`, skipped by `insert_prices`) and the OHLCV cells. -/
structure Row where
  ts : Option ℤ
  ropen : RawCell
  rhigh : RawCell
  rlow : RawCell
  rclose : RawCell
  rvolume : RawCell
  deriving DecidableEq, Repr

/-- The `stock_prices` collection: documents keyed by (ticker, date). -/
abbrev Store := List ((String × ℤ) × Doc)

/-- The document `insert_prices` builds for one dataframe row. -/
def mkDoc (ticker : String) (d : ℤ) (r : Row) : Doc :=
  { dticker := ticker, ddate := d, dopen := safe_float r.ropen,
    dhigh := safe_float r.rhigh, dlow := safe_float r.rlow,
    dclose := safe_float r.rclose, dvolume := safe_int r.rvolume }

/-- The keyed batch `insert_prices` derives from a fetched dataframe:
rows with a `NaT` timestamp are skipped, every other row becomes a
document keyed by (ticker, trade date). -/
def rowDocs (df : List Row) (ticker : String) : List ((String × ℤ) × Doc) :=
  df.filterMap (fun r => r.ts.map (fun d => ((ticker, d), mkDoc ticker d r)))

/-- `insert_prices` (`src/data_fetcher.py`): upsert every fetched row
into the store, keyed by (ticker, date). -/
def insert_prices (store : Store) (df : List Row) (ticker : String) : Store :=
  upsertAll store (rowDocs df ticker)

/-- `get_latest_date` (`src/data_fetcher.py`): the latest stored trade
date for a ticker (`find_one` sorted by date descending), or `none`
when the ticker has no stored bars. -/
def get_latest_date : Store → String → Option ℤ
  | [], _ => none
  | e :: rest, t =>
    let r := get_latest_date rest t
    if e.1.1 = t then
      some (match r with | some m => max e.1.2 m | none => e.1.2)
    else r

/-- `START_DATE = datetime(2015, 1, 1)` as a day number
(days since 1970-01-01). -/
def START_DATE : ℤ := 16436

/-- The fetch start date `run_fetching` computes for a ticker:
one day after the latest stored date, or `START_DATE` when the ticker
has no stored bars. -/
def fetchStart (store : Store) (t : String) : ℤ :=
  match get_latest_date store t with
  | some d => d + 1
  | none => START_DATE

/-- The external market-data provider (`yf.download`): given a ticker
and a start day it either raises or returns the daily rows from that
day through the present. -/
abbrev Provider := String → ℤ → Except String (List Row)

/-- `fetch_yfinance` (`src/data_fetcher.py`): skip (return `None`) when
the start date is not before today; otherwise call the provider, and
map an empty dataframe to `None`.  A provider error propagates. -/
def fetch_yfinance (p : Provider) (today : ℤ) (ticker : String) (start : ℤ) :
    Except String (Option (List Row)) :=
  if today ≤ start then .ok none
  else
    match p ticker start with
    | .error e => .error e
    | .ok df => if df.isEmpty then .ok none else .ok (some df)

/-- One iteration of the `run_fetching` loop body for a single ticker:
compute the start date, fetch, and insert when data came back.  There
is no exception handler, so a provider error propagates. -/
def processTicker (p : Provider) (today : ℤ) (store : Store) (t : String) :
    Except String Store :=
  match fetch_yfinance p today t (fetchStart store t) with
  | .error e => .error e
  | .ok none => .ok store
  | .ok (some df) => .ok (insert_prices store df t)

/-- `run_fetching` (`src/data_fetcher.py`): process the tickers in
order, threading the store; an error raised for one ticker aborts the
remaining ones (there is no try/except in the loop). -/
def run_fetching (p : Provider) (today : ℤ) : List String → Store → Except String Store
  | [], store => .ok store
  | t :: rest, store =>
    match processTicker p today store t with
    | .error e => .error e
    | .ok s2 => run_fetching p today rest s2

/-! ### Indicator library (`src/calculations.py`)

A dataframe column is a list of cells; a pandas `NaN` is `none`. -/

/-- A dataframe column: one `Option ℚ` cell per row, `none` for `NaN`. -/
abbrev Col := List (Option ℚ)

/-- The cell of a column at a row index (out-of-range reads as `NaN`;
all uses are guarded by the column length). -/
def cellAt (xs : Col) (i : ℕ) : Option ℚ :=
  xs.getD i none

/-- The trailing window of size `w` ending at row `i` (rows
`max 0 (i+1-w) … i`), as sliced by a pandas rolling window. -/
def windowSlice (xs : Col) (w i : ℕ) : Col :=
  (xs.take (i + 1)).drop (i + 1 - w)

/-- `rolling(w, min_periods=1).mean()` at row `i`: the mean of the
non-`NaN` values in the trailing window, `NaN` only when the window
holds no observation at all. -/
def rollingMeanAt (xs : Col) (w i : ℕ) : Option ℚ :=
  let vals := (windowSlice xs w i).reduceOption
  if vals.isEmpty then none else some (vals.sum / vals.length)

/-- The full `rolling(w, min_periods=1).mean()` column. -/
def rollingMeanCol (xs : Col) (w : ℕ) : Col :=
  (List.range xs.length).map (rollingMeanAt xs w)

/-- The `ewm(span, adjust=False).mean()` recursion: state is the last
emitted mean; a `NaN` cell emits (and keeps) the previous state. -/
def emaList (a : ℚ) : Option ℚ → Col → Col
  | _, [] => []
  | none, none :: rest => none :: emaList a none rest
  | none, some q :: rest => some q :: emaList a (some q) rest
  | some p, none :: rest => some p :: emaList a (some p) rest
  | some p, some q :: rest =>
    let y := a * q + (1 - a) * p
    some y :: emaList a (some y) rest

/-- `ewm(span=window, adjust=False).mean()` with `alpha = 2/(span+1)`. -/
def ewmMean (span : ℕ) (xs : Col) : Col :=
  emaList (2 / ((span : ℚ) + 1)) none xs

/-- `Series.diff()` at row `i`: current minus previous cell, `NaN` at
row 0 and wherever either side is `NaN`. -/
def diffAt (xs : Col) (i : ℕ) : Option ℚ :=
  if i = 0 then none
  else
    match cellAt xs i, cellAt xs (i - 1) with
    | some b, some a => some (b - a)
    | _, _ => none

/-- `delta.where(delta > 0, 0.0)`: the positive part of the diff; a
`NaN` diff fails the strict comparison and becomes `0.0`. -/
def gainAt (xs : Col) (i : ℕ) : ℚ :=
  match diffAt xs i with
  | some d => if 0 < d then d else 0
  | none => 0

/-- `-delta.where(delta < 0, 0.0)`: the negative part of the diff,
negated; a `NaN` diff fails the strict comparison and becomes `0.0`. -/
def lossAt (xs : Col) (i : ℕ) : ℚ :=
  match diffAt xs i with
  | some d => if d < 0 then -d else 0
  | none => 0

/-- Sum of `f` over the 14-row window ending at `i` (rows `i-13 … i`). -/
def winSum14 (f : ℕ → ℚ) (i : ℕ) : ℚ :=
  ((List.range 14).map (fun k => f (i - 13 + k))).sum

/-- `gain.rolling(14, min_periods=14).mean()` at row `i`: the gain
series has no `NaN`, so the average exists exactly when the window is
full, i.e. from row 13 on. -/
def avgGainAt (xs : Col) (i : ℕ) : Option ℚ :=
  if 13 ≤ i ∧ i < xs.length then some (winSum14 (gainAt xs) i / 14) else none

/-- `loss.rolling(14, min_periods=14).mean()` at row `i`. -/
def avgLossAt (xs : Col) (i : ℕ) : Option ℚ :=
  if 13 ≤ i ∧ i < xs.length then some (winSum14 (lossAt xs) i / 14) else none

/-- `rs = avg_gain / avg_loss.replace(0, NA)`: `NaN` while either
average is `NaN` and where the average loss is exactly zero. -/
def rsAt (xs : Col) (i : ℕ) : Option ℚ :=
  match avgGainAt xs i, avgLossAt xs i with
  | some g, some l => if l = 0 then none else some (g / l)
  | _, _ => none

/-- `(100 - 100/(1+rs)).fillna(50)`: the RSI(14) value at row `i`. -/
def rsiAt (xs : Col) (i : ℕ) : ℚ :=
  match rsAt xs i with
  | some r => 100 - 100 / (1 + r)
  | none => 50

/-- The `RSI_14` column written by `add_technical_indicators`. -/
def rsiCol (xs : Col) : Col :=
  (List.range xs.length).map (fun i => some (rsiAt xs i))

/-- `Series.pct_change()` at row `i`: relative change from the
previous cell, `NaN` at row 0. -/
def pctChangeAt (xs : Col) (i : ℕ) : Option ℚ :=
  if i = 0 then none
  else
    match cellAt xs i, cellAt xs (i - 1) with
    | some b, some a => some (b / a - 1)
    | _, _ => none

/-- `detect_abrupt_changes` (`src/calculations.py`): the (indices of
the) rows kept by `df[abs(df["pct_change"]) > threshold]`; a `NaN`
percent change fails the comparison and is dropped. -/
def detect_abrupt_changes (xs : Col) (thr : ℚ) : List ℕ :=
  (List.range xs.length).filter (fun i =>
    match pctChangeAt xs i with
    | some p => decide (thr < |p|)
    | none => false)

/-- Sample variance (`ddof = 1`) of a list of observations. -/
def sampleVar (l : List ℚ) : ℚ :=
  (l.map (fun x => (x - l.sum / l.length) ^ 2)).sum / ((l.length : ℚ) - 1)

/-- `rolling(w).std()` at row `i` (`min_periods` defaults to the
window): a value exists only when the window is full of `w` non-`NaN`
observations and `w ≥ 2` (one observation has undefined sample
deviation).  `sq` stands in for the square-root routine. -/
def rollingStdAt (sq : ℚ → ℚ) (xs : Col) (w i : ℕ) : Option ℚ :=
  let vals := (windowSlice xs w i).reduceOption
  if w ≤ i + 1 ∧ 2 ≤ w ∧ vals.length = w then some (sq (sampleVar vals)) else none

/-- The `volatility` column of `volatility_and_risk`. -/
def volCol (sq : ℚ → ℚ) (xs : Col) (w : ℕ) : Col :=
  (List.range xs.length).map (rollingStdAt sq xs w)

/-- The `risk` column: `volatility / close`, elementwise; `NaN`
wherever either side is `NaN`. -/
def riskCol (sq : ℚ → ℚ) (xs : Col) (w : ℕ) : Col :=
  (List.range xs.length).map (fun i =>
    match rollingStdAt sq xs w i, cellAt xs i with
    | some v, some c => some (v / c)
    | _, _ => none)

/-! ### Dataframe-level calls

A dataframe is its columns in order.  A Python call both returns a
value and leaves the caller's argument in some state; each embedded
call returns the pair (returned dataframe, argument after the call),
and `none` models a raised `KeyError` from
`get_close_price_column`. -/

/-- A dataframe: named columns in order. -/
abbrev Df := List (String × Col)

/-- ASCII lowercasing of one character (`str.lower()`; the column
names involved are ASCII). -/
def charLower (c : Char) : Char :=
  if 65 ≤ c.toNat ∧ c.toNat ≤ 90 then Char.ofNat (c.toNat + 32) else c

/-- The lowercased characters of a column name (`col.lower()`). -/
def lowerChars (s : String) : List Char :=
  s.data.map charLower

/-- `get_close_price_column`: the first column whose lowercased name is
"close", or an error (`none`) when there is none. -/
def get_close_price_column (df : Df) : Option String :=
  (df.map Prod.fst).find? (fun s => lowerChars s = ['c', 'l', 'o', 's', 'e'])

/-- The cells of a named column (absent reads as the empty column;
all uses look up a present column). -/
def colVals (df : Df) (c : String) : Col :=
  (lookupK df c).getD []

/-- `compute_sma` (`src/calculations.py`): assign the rolling mean to
`df["SMA"]` in place and return `df` itself — the returned dataframe
and the caller's argument after the call are the same object. -/
def compute_sma (df : Df) (window : ℕ) : Option (Df × Df) :=
  (get_close_price_column df).map (fun c =>
    let r := upsert df "SMA" (rollingMeanCol (colVals df c) window)
    (r, r))

/-- `compute_ema` (`src/calculations.py`): assign the exponential mean
to `df["EMA"]` in place and return `df` itself. -/
def compute_ema (df : Df) (window : ℕ) : Option (Df × Df) :=
  (get_close_price_column df).map (fun c =>
    let r := upsert df "EMA" (ewmMean window (colVals df c))
    (r, r))

/-- Elementwise difference of two columns (`NaN` propagates). -/
def zipSub (a b : Col) : Col :=
  List.zipWith (fun x y =>
    match x, y with
    | some p, some q => some (p - q)
    | _, _ => none) a b

/-- The `Golden_Cross` column: `(SMA_50 > SMA_200) & notna & notna`
cast to int — `1` where both means exist and the 50-row mean is
strictly larger, else `0`. -/
def goldenCross (close : Col) : Col :=
  List.zipWith (fun a b =>
    match a, b with
    | some x, some y => some (if y < x then (1 : ℚ) else 0)
    | _, _ => some 0) (rollingMeanCol close 50) (rollingMeanCol close 200)

/-- `add_technical_indicators` (`src/calculations.py`): empty input is
returned as is; otherwise the function works on `df.copy()`, so the
returned dataframe carries the indicator columns while the caller's
argument is left unchanged. -/
def add_technical_indicators (df : Df) : Option (Df × Df) :=
  if df.isEmpty then some (df, df)
  else
    (get_close_price_column df).map (fun c =>
      let close := colVals df c
      let macd := zipSub (ewmMean 12 close) (ewmMean 26 close)
      let macdSignal := ewmMean 9 macd
      let r := upsertAll df
        [("SMA_20", rollingMeanCol close 20),
         ("SMA_50", rollingMeanCol close 50),
         ("SMA_200", rollingMeanCol close 200),
         ("EMA_20", ewmMean 20 close),
         ("EMA_50", ewmMean 50 close),
         ("RSI_14", rsiCol close),
         ("MACD", macd),
         ("MACD_signal", macdSignal),
         ("MACD_hist", zipSub macd macdSignal),
         ("Golden_Cross", goldenCross close)]
      (r, df))

/-- `volatility_and_risk` (`src/calculations.py`): assign the
`volatility` and `risk` columns in place and return `df` itself. -/
def volatility_and_risk (sq : ℚ → ℚ) (df : Df) (window : ℕ) : Option (Df × Df) :=
  (get_close_price_column df).map (fun c =>
    let close := colVals df c
    let r := upsert (upsert df "volatility" (volCol sq close window)) "risk"
      (riskCol sq close window)
    (r, r))

/-! ### Correlation (`correlation_analysis` of `src/calculations.py`) -/

/-- The stored close series of each ticker, date-ascending. -/
abbrev PriceDb := List (String × List (ℤ × ℚ))

/-- `fetch_prices`: the stored series of a ticker, `None` when the
ticker has no stored bars. -/
def fetch_prices (db : PriceDb) (t : String) : Option (List (ℤ × ℚ)) :=
  match lookupK db t with
  | some l => if l.isEmpty then none else some l
  | none => none

/-- The series kept by the `correlation_analysis` loop: tickers with no
data are skipped. -/
def keptSeries (db : PriceDb) (tickers : List String) : List (List (ℤ × ℚ)) :=
  tickers.filterMap (fetch_prices db)

/-- The dates (index) of one series. -/
def datesOfSeries (s : List (ℤ × ℚ)) : List ℤ :=
  s.map Prod.fst

/-- The index of `pd.concat(series_list, axis=1, join="inner")`: the
dates of the first kept series that occur in every other kept series
(the intersection of all the indexes). -/
def commonDates (db : PriceDb) (tickers : List String) : List ℤ :=
  match keptSeries db tickers with
  | [] => []
  | s :: rest =>
    (datesOfSeries s).filter (fun d => rest.all (fun s2 => decide (d ∈ datesOfSeries s2)))

/-- One series restricted to the joined dates, in join order. -/
def alignedVals (s : List (ℤ × ℚ)) (ds : List ℤ) : List ℚ :=
  ds.map (fun d => (List.lookup d s).getD 0)

/-- Mean of a list of observations. -/
def meanQ (l : List ℚ) : ℚ :=
  l.sum / l.length

/-- The centered cross-product sum `Σ (x - x̄)(y - ȳ)` — the Pearson
numerator, up to the `1/(n-1)` factor that cancels in the ratio. -/
def covSum (xs ys : List ℚ) : ℚ :=
  (List.zipWith (fun a b => (a - meanQ xs) * (b - meanQ ys)) xs ys).sum

/-- The centered square sum `Σ (x - x̄)²`. -/
def varSum (xs : List ℚ) : ℚ :=
  covSum xs xs

/-- The rational data of the correlation-matrix entry `(i, j)`:
(numerator sum, both denominator square sums); `none` where pandas
produces `NaN` from fewer than two joined observations, or where an
index is outside the kept tickers. -/
def corrCell (db : PriceDb) (tickers : List String) (i j : ℕ) : Option (ℚ × ℚ × ℚ) :=
  let ds := commonDates db tickers
  let ss := keptSeries db tickers
  match ss[i]?, ss[j]? with
  | some si, some sj =>
    if ds.length < 2 then none
    else
      some (covSum (alignedVals si ds) (alignedVals sj ds),
            varSum (alignedVals si ds), varSum (alignedVals sj ds))
  | _, _ => none

/-- The real value of a correlation entry:
`Σ(x-x̄)(y-ȳ) / (√Σ(x-x̄)² ⬝ √Σ(y-ȳ)²)`; a zero square sum is a zero
standard deviation, where pandas produces `NaN` (`none`). -/
noncomputable def corrVal : Option (ℚ × ℚ × ℚ) → Option ℝ := fun e =>
  e.bind (fun t =>
    if t.2.1 = 0 ∨ t.2.2 = 0 then none
    else some ((t.1 : ℝ) / (Real.sqrt (t.2.1 : ℝ) * Real.sqrt (t.2.2 : ℝ))))

/-- `correlation_analysis` (`src/calculations.py`) as the entry map of
the returned matrix over the kept tickers. -/
noncomputable def correlation_analysis (db : PriceDb) (tickers : List String) (i j : ℕ) :
    Option ℝ :=
  corrVal (corrCell db tickers i j)

/-- Number of bars stored for one ticker. -/
def countBars (s : Store) (t : String) : ℕ :=
  (s.filter (fun e => e.1.1 = t)).length

/-! ### Concrete inputs used by counterexamples and witnesses -/

/-- A stored bar document for the counterexamples. -/
def docA : Doc :=
  { dticker := "A", ddate := 16536, dopen := some 1, dhigh := some 2,
    dlow := some 1, dclose := some 2, dvolume := 100 }

/-- A store holding exactly one bar for ticker "A" at day 16536. -/
def storeC1 : Store := [(("A", 16536), docA)]

/-- One well-formed provider row at day 17000. -/
def rowB : Row :=
  { ts := some 17000, ropen := .fnum 1, rhigh := .fnum 2, rlow := .fnum 1,
    rclose := .fnum 2, rvolume := .fnum 100 }

/-- A provider that raises for ticker "A" and answers for every other
ticker. -/
def provC2 : Provider := fun t _ =>
  if t = "A" then .error "provider down" else .ok [rowB]

/-- A provider that always answers with an empty dataframe. -/
def provEmpty : Provider := fun _ _ => .ok []

/-- 14 closes alternating 10, 20: 13 mixed-sign deltas. -/
def closes14 : List ℚ :=
  [10, 20, 10, 20, 10, 20, 10, 20, 10, 20, 10, 20, 10, 20]

/-- A two-column-free dataframe with one lowercase close column. -/
def dfC6 : Df := [("close", [some 1, some 2])]

/-- 15 strictly rising closes: every delta is a gain, no losses. -/
def closesUp : List ℚ := [1, 2, 3, 4, 5, 6, 7, 8, 9, 10, 11, 12, 13, 14, 15]

/-- Two tickers sharing exactly one common date. -/
def dbC7 : PriceDb := [("A", [(1, 10)]), ("B", [(1, 20)])]

/-- Two tickers sharing two common dates, both non-constant. -/
def dbC7w : PriceDb := [("A", [(1, 10), (2, 20)]), ("B", [(1, 5), (2, 1)])]

/-! ## Theorems -/

section UpsertLemmas

variable {K : Type u} {V : Type v} [DecidableEq K]

theorem lookupK_upsert_self (s : List (K × V)) (k : K) (v : V) :
    lookupK (upsert s k v) k = some v := by
  induction s with
  | nil => simp [upsert, lookupK]
  | cons p rest ih =>
    by_cases h : p.1 = k
    · simp [upsert, h, lookupK]
    · simp [upsert, h, lookupK, ih]

theorem lookupK_upsert_ne (s : List (K × V)) (k k' : K) (v : V) (h : k' ≠ k) :
    lookupK (upsert s k v) k' = lookupK s k' := by
  induction s with
  | nil => simp [upsert, lookupK, Ne.symm h]
  | cons p rest ih =>
    by_cases hp : p.1 = k
    · simp [upsert, hp, lookupK, Ne.symm h]
    · simp [upsert, hp, lookupK, ih]

theorem mem_keysOf_upsert (s : List (K × V)) (k k' : K) (v : V) :
    k' ∈ keysOf (upsert s k v) → k' = k ∨ k' ∈ keysOf s := by
  induction s with
  | nil =>
    intro h
    simp only [upsert, keysOf, List.map_cons, List.map_nil, List.mem_singleton] at h
    exact Or.inl h
  | cons p rest ih =>
    intro h
    by_cases hp : p.1 = k
    · simp only [upsert, if_pos hp, keysOf, List.map_cons, List.mem_cons] at h
      rcases h with h | h
      · exact Or.inl h
      · exact Or.inr (List.mem_cons_of_mem _ h)
    · simp only [upsert, if_neg hp, keysOf, List.map_cons, List.mem_cons] at h
      rcases h with h | h
      · exact Or.inr (by simp [keysOf, h])
      · rcases ih h with hh | hh
        · exact Or.inl hh
        · exact Or.inr (List.mem_cons_of_mem _ hh)

theorem nodup_keysOf_upsert (s : List (K × V)) (k : K) (v : V) :
    (keysOf s).Nodup → (keysOf (upsert s k v)).Nodup := by
  induction s with
  | nil => intro _; simp [upsert, keysOf]
  | cons p rest ih =>
    intro h
    simp only [keysOf, List.map_cons, List.nodup_cons] at h
    by_cases hp : p.1 = k
    · simp only [upsert, if_pos hp, keysOf, List.map_cons, List.nodup_cons]
      exact ⟨hp ▸ h.1, h.2⟩
    · simp only [upsert, if_neg hp, keysOf, List.map_cons, List.nodup_cons]
      refine ⟨fun hmem => ?_, ih h.2⟩
      rcases mem_keysOf_upsert rest k p.1 v hmem with hh | hh
      · exact hp hh
      · exact h.1 hh

theorem upsert_eq_self (s : List (K × V)) (k : K) (v : V) :
    (keysOf s).Nodup → lookupK s k = some v → upsert s k v = s := by
  induction s with
  | nil => intro _ h; simp [lookupK] at h
  | cons p rest ih =>
    intro hnd h
    simp only [keysOf, List.map_cons, List.nodup_cons] at hnd
    by_cases hp : p.1 = k
    · simp only [lookupK, if_pos hp] at h
      have hv : v = p.2 := (Option.some.inj h).symm
      simp only [upsert, if_pos hp]
      rw [← hp, hv]
    · simp only [lookupK, if_neg hp] at h
      simp [upsert, hp, ih hnd.2 h]

theorem upsertAll_cons (s : List (K × V)) (p : K × V) (l : List (K × V)) :
    upsertAll s (p :: l) = upsertAll (upsert s p.1 p.2) l := rfl

theorem lookupK_upsertAll_not_mem (l : List (K × V)) (k' : K) :
    ∀ s : List (K × V), k' ∉ keysOf l → lookupK (upsertAll s l) k' = lookupK s k' := by
  induction l with
  | nil => intro s _; rfl
  | cons p rest ih =>
    intro s h
    simp only [keysOf, List.map_cons, List.mem_cons, not_or] at h
    rw [upsertAll_cons, ih _ (by simpa [keysOf] using h.2),
      lookupK_upsert_ne _ _ _ _ h.1]

theorem lookupK_upsertAll_mem (l : List (K × V)) :
    ∀ s : List (K × V), (keysOf l).Nodup →
      ∀ p ∈ l, lookupK (upsertAll s l) p.1 = some p.2 := by
  induction l with
  | nil => intro s _ p hp; simp at hp
  | cons q rest ih =>
    intro s hnd p hp
    simp only [keysOf, List.map_cons, List.nodup_cons] at hnd
    rcases List.mem_cons.mp hp with rfl | hp
    · rw [upsertAll_cons,
        lookupK_upsertAll_not_mem _ _ _ (by simpa [keysOf] using hnd.1)]
      exact lookupK_upsert_self _ _ _
    · exact ih (upsert s q.1 q.2) hnd.2 p hp

theorem nodup_keysOf_upsertAll (l : List (K × V)) :
    ∀ s : List (K × V), (keysOf s).Nodup → (keysOf (upsertAll s l)).Nodup := by
  induction l with
  | nil => intro s h; exact h
  | cons p rest ih =>
    intro s h
    exact (upsertAll_cons s p rest) ▸ ih _ (nodup_keysOf_upsert _ _ _ h)

theorem upsertAll_eq_self (s l : List (K × V)) :
    (keysOf s).Nodup → (∀ p ∈ l, lookupK s p.1 = some p.2) →
    upsertAll s l = s := by
  induction l with
  | nil => intro _ _; rfl
  | cons p rest ih =>
    intro hnd h
    rw [upsertAll_cons, upsert_eq_self s p.1 p.2 hnd (h p (List.mem_cons_self _ _))]
    exact ih hnd fun q hq => h q (List.mem_cons_of_mem _ hq)

theorem upsertAll_idem (s l : List (K × V))
    (hs : (keysOf s).Nodup) (hl : (keysOf l).Nodup) :
    upsertAll (upsertAll s l) l = upsertAll s l :=
  upsertAll_eq_self _ _ (nodup_keysOf_upsertAll l s hs)
    (lookupK_upsertAll_mem l s hl)

end UpsertLemmas

/-- C3 — Inserting the same set of fetched bars twice is idempotent:
each bar is upserted keyed by (ticker, date), so replaying an identical
fetch leaves the store — in particular the bar count for the ticker and
every stored value — exactly as after the first run, produces no
duplicate keys, and raises no error (the embedding is total). -/
theorem insert_prices_idempotent (store : Store) (df : List Row) (t : String)
    (hs : (keysOf store).Nodup) (hdf : (keysOf (rowDocs df t)).Nodup) :
    insert_prices (insert_prices store df t) df t = insert_prices store df t ∧
    (keysOf (insert_prices store df t)).Nodup ∧
    countBars (insert_prices (insert_prices store df t) df t) t =
      countBars (insert_prices store df t) t := by
  have hidem := upsertAll_idem store (rowDocs df t) hs hdf
  refine ⟨hidem, nodup_keysOf_upsertAll _ _ hs, ?_⟩
  unfold insert_prices at hidem ⊢
  rw [hidem]

/-- C3 witness: a concrete one-row fetch replayed over the empty store. -/
theorem insert_prices_idempotent_witness :
    insert_prices (insert_prices [] [rowB] "B") [rowB] "B" =
      insert_prices [] [rowB] "B" ∧
    (keysOf (insert_prices [] [rowB] "B")).Nodup ∧
    countBars (insert_prices (insert_prices [] [rowB] "B") [rowB] "B") "B" =
      countBars (insert_prices [] [rowB] "B") "B" :=
  insert_prices_idempotent [] [rowB] "B" (by simp [keysOf])
    (by simp [keysOf, rowDocs, rowB])

theorem get_latest_date_none_spec (store : Store) (t : String) :
    get_latest_date store t = none →
      ∀ (d' : ℤ) (doc' : Doc), ((t, d'), doc') ∈ store → False := by
  induction store with
  | nil => intro _ d' doc' hmem; simp at hmem
  | cons e rest ih =>
    intro h d' doc' hmem
    by_cases he : e.1.1 = t
    · simp only [get_latest_date, if_pos he] at h
      exact (Option.some_ne_none _ h).elim
    · simp only [get_latest_date, if_neg he] at h
      rcases List.mem_cons.mp hmem with heq | hmem

      · exact he (by rw [← heq])
      · exact ih h d' doc' hmem

theorem get_latest_date_some_spec (store : Store) (t : String) :
    ∀ d : ℤ, get_latest_date store t = some d →
      (∃ doc, ((t, d), doc) ∈ store) ∧
      ∀ (d' : ℤ) (doc' : Doc), ((t, d'), doc') ∈ store → d' ≤ d := by
  induction store with
  | nil => intro d h; simp [get_latest_date] at h
  | cons e rest ih =>
    intro d h
    have heta : ((e.1.1, e.1.2), e.2) = e := rfl
    by_cases he : e.1.1 = t
    · simp only [get_latest_date, if_pos he] at h
      rcases hr : get_latest_date rest t with _ | m
      · rw [hr] at h
        simp only [Option.some.injEq] at h
        subst h
        refine ⟨⟨e.2, ?_⟩, ?_⟩
        · rw [← he, heta]
          exact List.mem_cons_self _ _
        · intro d' doc' hmem
          rcases List.mem_cons.mp hmem with heq | hmem
          · exact le_of_eq (by rw [← heq])
          · exact absurd hmem (fun hm => get_latest_date_none_spec rest t hr d' doc' hm)
      · rw [hr] at h
        simp only [Option.some.injEq] at h
        subst h
        obtain ⟨⟨doc, hdoc⟩, hbound⟩ := ih m hr
        constructor
        · rcases le_total e.1.2 m with hle | hle
          · refine ⟨doc, ?_⟩
            rw [max_eq_right hle]
            exact List.mem_cons_of_mem _ hdoc
          · refine ⟨e.2, ?_⟩
            rw [max_eq_left hle, ← he, heta]
            exact List.mem_cons_self _ _
        · intro d' doc' hmem
          rcases List.mem_cons.mp hmem with heq | hmem
          · exact le_trans (le_of_eq (by rw [← heq])) (le_max_left _ _)
          · exact le_trans (hbound d' doc' hmem) (le_max_right _ _)
    · simp only [get_latest_date, if_neg he] at h
      obtain ⟨⟨doc, hdoc⟩, hbound⟩ := ih d h
      refine ⟨⟨doc, List.mem_cons_of_mem _ hdoc⟩, ?_⟩
      intro d' doc' hmem
      rcases List.mem_cons.mp hmem with heq | hmem
      · exact absurd (by rw [← heq] : e.1.1 = t) he
      · exact hbound d' doc' hmem

/-- C1 counterexample: with one bar for "A" stored at day 16536, the
computed fetch start is 16537 (latest stored date + 1 day), not the
claimed latest-minus-7-days 16529. -/
theorem fetchStart_no_lookback_cex :
    get_latest_date storeC1 "A" = some 16536 ∧
    fetchStart storeC1 "A" = 16537 ∧ (16537 : ℤ) ≠ 16536 - 7 := by
  refine ⟨by decide, by decide, by decide⟩

/-- C1 amended — for every ticker, the fetch start date is the latest
stored trade date for that ticker plus one day (`get_latest_date` is
exactly the maximum stored date), or the fixed epoch `START_DATE`
(2015-01-01) when no bars are stored; no safety lookback is subtracted.
Bars are requested from that start through today, and the fetch is
skipped when the start is not before today. -/
theorem run_fetching_start_date (p : Provider) (today : ℤ) (store : Store) (t : String) :
    (∀ d : ℤ, get_latest_date store t = some d →
      (∃ doc, ((t, d), doc) ∈ store) ∧
      (∀ (d' : ℤ) (doc' : Doc), ((t, d'), doc') ∈ store → d' ≤ d) ∧
      fetchStart store t = d + 1) ∧
    (get_latest_date store t = none →
      (∀ (d' : ℤ) (doc' : Doc), ((t, d'), doc') ∈ store → False) ∧
      fetchStart store t = START_DATE) ∧
    (today ≤ fetchStart store t → processTicker p today store t = Except.ok store) := by
  refine ⟨?_, ?_, ?_⟩
  · intro d h
    obtain ⟨hex, hbound⟩ := get_latest_date_some_spec store t d h
    exact ⟨hex, hbound, by simp [fetchStart, h]⟩
  · intro h
    exact ⟨get_latest_date_none_spec store t h, by simp [fetchStart, h]⟩
  · intro h
    simp [processTicker, fetch_yfinance, h]

/-- C1 witness: the amended start-date rule evaluated on the concrete
one-bar store, plus the skip branch at a day before the start. -/
theorem run_fetching_start_date_witness :
    ((∃ doc, (("A", (16536 : ℤ)), doc) ∈ storeC1) ∧
     (∀ (d' : ℤ) (doc' : Doc), (("A", d'), doc') ∈ storeC1 → d' ≤ 16536) ∧
     fetchStart storeC1 "A" = 16536 + 1) ∧
    processTicker provC2 16537 storeC1 "A" = Except.ok storeC1 := by
  have h := run_fetching_start_date provC2 16537 storeC1 "A"
  exact ⟨h.1 16536 (by decide), h.2.2 (by decide)⟩

/-- C2 counterexample: a provider failure for the first ticker makes
the whole batch raise — the second ticker is never processed — while
the same run on the second ticker alone succeeds. -/
theorem run_fetching_aborts_cex :
    run_fetching provC2 17100 ["A", "B"] [] = Except.error "provider down" ∧
    (run_fetching provC2 17100 ["B"] []).isOk = true := by
  constructor
  · rfl
  · rfl

/-- C2 amended — `run_fetching` has no per-ticker exception handler: a
provider error for one ticker propagates and aborts the whole batch
(the remaining tickers are not processed).  Only the benign cases
continue with the rest of the batch: an empty provider response and an
already-up-to-date ticker are skipped. -/
theorem run_fetching_error_semantics (p : Provider) (today : ℤ) (store : Store)
    (t : String) (rest : List String) (e : String) :
    (fetchStart store t < today → p t (fetchStart store t) = Except.error e →
      run_fetching p today (t :: rest) store = Except.error e) ∧
    (p t (fetchStart store t) = Except.ok [] →
      run_fetching p today (t :: rest) store = run_fetching p today rest store) ∧
    (today ≤ fetchStart store t →
      run_fetching p today (t :: rest) store = run_fetching p today rest store) := by
  refine ⟨?_, ?_, ?_⟩
  · intro h1 h2
    have hlt : ¬ today ≤ fetchStart store t := not_le.mpr h1
    simp [run_fetching, processTicker, fetch_yfinance, hlt, h2]
  · intro h2
    by_cases hle : today ≤ fetchStart store t
    · simp [run_fetching, processTicker, fetch_yfinance, hle]
    · simp [run_fetching, processTicker, fetch_yfinance, hle, h2, List.isEmpty]
  · intro h
    simp [run_fetching, processTicker, fetch_yfinance, h]

/-- C2 witness: the abort, empty-response and up-to-date branches of
the amended failure semantics evaluated on concrete providers. -/
theorem run_fetching_error_semantics_witness :
    run_fetching provC2 17100 ["A", "X"] [] = Except.error "provider down" ∧
    run_fetching provEmpty 17100 ["A", "X"] [] = run_fetching provEmpty 17100 ["X"] [] ∧
    run_fetching provC2 16000 ["A"] storeC1 = run_fetching provC2 16000 [] storeC1 := by
  refine ⟨?_, ?_, ?_⟩
  · exact (run_fetching_error_semantics provC2 17100 [] "A" ["X"] "provider down").1
      (by decide) (by rfl)
  · exact (run_fetching_error_semantics provEmpty 17100 [] "A" ["X"] "e").2.1 (by rfl)
  · exact (run_fetching_error_semantics provC2 16000 storeC1 "A" [] "e").2.2 (by decide)

theorem reduceOption_map_some (l : List ℚ) : (l.map some).reduceOption = l := by
  induction l with
  | nil => rfl
  | cons a t ih => simp [ih]

theorem rollingMeanAt_all_some (closes : List ℚ) (w i : ℕ) (hw : 1 ≤ w)
    (hi : i < closes.length) :
    rollingMeanAt (closes.map some) w i =
      some (((closes.take (i + 1)).drop (i + 1 - w)).sum / ((min (i + 1) w : ℕ) : ℚ)) := by
  have hred : (windowSlice (closes.map some) w i).reduceOption =
      (closes.take (i + 1)).drop (i + 1 - w) := by
    rw [windowSlice, ← List.map_take, ← List.map_drop, reduceOption_map_some]
  have hlen : ((closes.take (i + 1)).drop (i + 1 - w)).length = min (i + 1) w := by
    rw [List.length_drop, List.length_take]
    omega
  have hne : (closes.take (i + 1)).drop (i + 1 - w) ≠ [] := by
    intro hnil
    rw [hnil] at hlen
    simp at hlen
    omega
  simp only [rollingMeanAt, hred, hlen]
  rw [if_neg (by simpa [List.isEmpty_iff] using hne)]

/-- C5 — `compute_sma` writes the rolling mean with `min_periods=1`:
the SMA cell at index `i` is the arithmetic mean of the trailing
`min(i+1, window)` closes, so the first `window-1` rows carry partial
shrinking-window averages rather than missing values. -/
theorem sma_partial_mean (df : Df) (c : String) (w i : ℕ) (closes : List ℚ)
    (hc : get_close_price_column df = some c)
    (hcol : colVals df c = closes.map some)
    (hw : 1 ≤ w) (hi : i < closes.length) :
    ∃ r, compute_sma df w = some (r, r) ∧
      lookupK r "SMA" = some (rollingMeanCol (closes.map some) w) ∧
      (rollingMeanCol (closes.map some) w)[i]? =
        some (some (((closes.take (i + 1)).drop (i + 1 - w)).sum /
          ((min (i + 1) w : ℕ) : ℚ))) := by
  refine ⟨upsert df "SMA" (rollingMeanCol (closes.map some) w), ?_, ?_, ?_⟩
  · simp [compute_sma, hc, hcol]
  · exact lookupK_upsert_self _ _ _
  · have hn : i < (closes.map some).length := by simpa using hi
    rw [rollingMeanCol, List.getElem?_map, List.getElem?_range (by simpa using hn),
      Option.map_some', rollingMeanAt_all_some closes w i hw hi]

/-- C5 witness: the shrinking-window mean on a two-row close column
with window 3 at row 1: (1 + 2) / 2. -/
theorem sma_partial_mean_witness :
    ∃ r, compute_sma dfC6 3 = some (r, r) ∧
      lookupK r "SMA" = some (rollingMeanCol (([1, 2] : List ℚ).map some) 3) ∧
      (rollingMeanCol (([1, 2] : List ℚ).map some) 3)[1]? =
        some (some (((([1, 2] : List ℚ).take (1 + 1)).drop (1 + 1 - 3)).sum /
          ((min (1 + 1) 3 : ℕ) : ℚ))) :=
  sma_partial_mean dfC6 "close" 3 1 [1, 2] (by rfl) (by rfl) (by decide) (by decide)

/-- C8 — `volatility_and_risk` leaves the risk cell at each of the
first `window-1` rows missing (`NaN`): the rolling standard deviation
needs a full window, and the missing deviation propagates through the
`volatility / close` division. -/
theorem volatility_risk_undefined (sq : ℚ → ℚ) (df : Df) (c : String) (w i : ℕ)
    (hc : get_close_price_column df = some c)
    (hi : i + 1 < w) (hn : i < (colVals df c).length) :
    ∃ r, volatility_and_risk sq df w = some (r, r) ∧
      lookupK r "risk" = some (riskCol sq (colVals df c) w) ∧
      (riskCol sq (colVals df c) w)[i]? = some none := by
  refine ⟨upsert (upsert df "volatility" (volCol sq (colVals df c) w)) "risk"
    (riskCol sq (colVals df c) w), ?_, ?_, ?_⟩
  · simp [volatility_and_risk, hc]
  · exact lookupK_upsert_self _ _ _
  · rw [riskCol, List.getElem?_map, List.getElem?_range hn, Option.map_some']
    have hstd : rollingStdAt sq (colVals df c) w i = none := by
      simp only [rollingStdAt]
      exact if_neg (fun hcon => absurd hcon.1 (by omega))
    rcases hcell : cellAt (colVals df c) i with _ | q <;> simp [hstd, hcell]

/-- C8 witness: window 3 on a two-row close column leaves the risk at
row 1 missing. -/
theorem volatility_risk_undefined_witness :
    ∃ r, volatility_and_risk id dfC6 3 = some (r, r) ∧
      lookupK r "risk" = some (riskCol id (colVals dfC6 "close") 3) ∧
      (riskCol id (colVals dfC6 "close") 3)[1]? = some none :=
  volatility_risk_undefined id dfC6 "close" 3 1 (by rfl) (by decide) (by decide)

/-- C9 — `detect_abrupt_changes` keeps exactly the rows whose
close-to-close percent change strictly exceeds the threshold in
absolute value; on closes [100, 105, 98, 120] with threshold 0.10 only
the 98→120 row (index 3) is flagged. -/
theorem detect_abrupt_changes_spec (xs : Col) (thr : ℚ) :
    (∀ i, i ∈ detect_abrupt_changes xs thr ↔
      i < xs.length ∧ ∃ p, pctChangeAt xs i = some p ∧ thr < |p|) ∧
    (∀ i a b, i ≠ 0 → cellAt xs (i - 1) = some a → cellAt xs i = some b →
      pctChangeAt xs i = some (b / a - 1)) ∧
    detect_abrupt_changes [some 100, some 105, some 98, some 120] (1 / 10) = [3] := by
  refine ⟨?_, ?_, ?_⟩
  · intro i
    rw [detect_abrupt_changes, List.mem_filter, List.mem_range]
    rcases hpc : pctChangeAt xs i with _ | p <;> simp [hpc]
  · intro i a b h0 ha hb
    unfold pctChangeAt
    rw [if_neg h0, ha, hb]
  · have hr : List.range 4 = [0, 1, 2, 3] := by rfl
    simp only [detect_abrupt_changes, List.length_cons, List.length_nil, hr]
    norm_num [List.filter, pctChangeAt, cellAt]
    rw [show (decide ((1 : ℚ) / 10 < |(1 : ℚ) / 20|)) = false from
          decide_eq_false (by simp [abs]; norm_num),
        show (decide ((1 : ℚ) / 10 < |(1 : ℚ) / 15|)) = false from
          decide_eq_false (by simp [abs]; norm_num),
        show (decide ((1 : ℚ) / 10 < |(11 : ℚ) / 49|)) = true from
          decide_eq_true (by simp [abs]; norm_num)]

/-- C9 witness: the membership characterization and the percent-change
formula evaluated at the flagged row of the worked example. -/
theorem detect_abrupt_changes_spec_witness :
    (3 ∈ detect_abrupt_changes [some 100, some 105, some 98, some 120] (1 / 10) ↔
      3 < ([some 100, some 105, some 98, some (120 : ℚ)] : Col).length ∧
      ∃ p, pctChangeAt [some 100, some 105, some 98, some 120] 3 = some p ∧
        (1 : ℚ) / 10 < |p|) ∧
    pctChangeAt [some 100, some 105, some 98, some 120] 3 = some ((120 : ℚ) / 98 - 1) := by
  have h := detect_abrupt_changes_spec [some 100, some 105, some 98, some 120] (1 / 10)
  exact ⟨h.1 3, h.2.1 3 98 120 (by decide) (by rfl) (by rfl)⟩

/-- C10 — at a row whose trailing window holds 14 genuine deltas but
whose average loss is exactly zero (a non-declining stretch), the zero
average loss is replaced by a missing ratio and `fillna` writes the
neutral 50 — not 100 — into `RSI_14`. -/
theorem rsi_zero_loss_neutral (closes : List ℚ) (i : ℕ) (h14 : 14 ≤ i)
    (hlen : i < closes.length)
    (hzero : avgLossAt (closes.map some) i = some 0) :
    rsiAt (closes.map some) i = 50 ∧
    (rsiCol (closes.map some))[i]? = some (some 50) := by
  have h50 : rsiAt (closes.map some) i = 50 := by
    unfold rsiAt rsAt
    rcases hg : avgGainAt (closes.map some) i with _ | g <;> simp [hg, hzero]
  refine ⟨h50, ?_⟩
  rw [rsiCol, List.getElem?_map, List.getElem?_range (by simpa using hlen),
    Option.map_some', h50]

/-- C10 witness: 15 strictly rising closes — the window at row 14 has
14 genuine deltas, zero average loss, and RSI 50. -/
theorem rsi_zero_loss_neutral_witness :
    rsiAt (closesUp.map some) 14 = 50 ∧
    (rsiCol (closesUp.map some))[14]? = some (some 50) :=
  rsi_zero_loss_neutral closesUp 14 (by decide) (by decide) (by
    have hr : List.range 14 = [0, 1, 2, 3, 4, 5, 6, 7, 8, 9, 10, 11, 12, 13] := by rfl
    norm_num [avgLossAt, winSum14, hr, lossAt, diffAt, cellAt, closesUp,
      List.getD_cons_succ, List.getD_cons_zero])

/-- C4 counterexample: at row 13 — which has only 13 prior deltas,
fewer than 14 — the alternating series closes14 yields RSI 700/13,
not the claimed neutral 50, because the 14-value rolling window is
completed by the zero standing in for the missing first delta. -/
theorem rsi_at_13_not_neutral_cex :
    (rsiCol (closes14.map some))[13]? = some (some (700 / 13)) ∧
    ((700 : ℚ) / 13) ≠ 50 := by
  constructor
  · have hlen : 13 < (closes14.map some).length := by
      simp [closes14]
    rw [rsiCol, List.getElem?_map, List.getElem?_range (by simpa using hlen),
      Option.map_some', Option.some.injEq, Option.some.injEq]
    have hr : List.range 14 = [0, 1, 2, 3, 4, 5, 6, 7, 8, 9, 10, 11, 12, 13] := by rfl
    norm_num [rsiAt, rsAt, avgGainAt, avgLossAt, winSum14, hr, gainAt, lossAt,
      diffAt, cellAt, closes14, List.getD_cons_succ, List.getD_cons_zero]
  · norm_num

theorem gainAt_nonneg (xs : Col) (j : ℕ) : 0 ≤ gainAt xs j := by
  unfold gainAt
  rcases diffAt xs j with _ | d
  · exact le_refl 0
  · dsimp only
    split
    · exact le_of_lt (by assumption)
    · exact le_refl 0

theorem lossAt_nonneg (xs : Col) (j : ℕ) : 0 ≤ lossAt xs j := by
  unfold lossAt
  rcases diffAt xs j with _ | d
  · exact le_refl 0
  · dsimp only
    split
    · linarith [show d < 0 from by assumption]
    · exact le_refl 0

theorem winSum14_nonneg (f : ℕ → ℚ) (i : ℕ) (hf : ∀ j, 0 ≤ f j) :
    0 ≤ winSum14 f i := by
  unfold winSum14
  refine List.sum_nonneg ?_
  intro x hx
  obtain ⟨k, _, hk⟩ := List.mem_map.mp hx
  exact hk ▸ hf _

/-- C4 amended — the `RSI_14` column is bounded in [0, 100] at every
row for every input, and equals exactly 50 at every row with fewer
than 13 prior deltas (rows 0–12, where the 14-term rolling average is
still undefined and `fillna(50)` applies); at the row with exactly 13
prior deltas the rolling window is already full — the first diff
position contributes a zero gain and loss instead of a missing value —
so RSI is computed there rather than defaulted. -/
theorem rsi_bounded_neutral (xs : Col) :
    (∀ i, 0 ≤ rsiAt xs i ∧ rsiAt xs i ≤ 100) ∧
    (∀ i, i < 13 → rsiAt xs i = 50) ∧
    (∀ i, i < xs.length → (rsiCol xs)[i]? = some (some (rsiAt xs i))) := by
  refine ⟨?_, ?_, ?_⟩
  · intro i
    rcases hr : rsAt xs i with _ | r
    · unfold rsiAt
      rw [hr]
      norm_num
    · have hr0 : 0 ≤ r := by
        unfold rsAt at hr
        rcases hg : avgGainAt xs i with _ | g <;> rw [hg] at hr
        · exact absurd hr (by simp)
        rcases hl : avgLossAt xs i with _ | l <;> rw [hl] at hr
        · exact absurd hr (by simp)
        dsimp only at hr
        by_cases l0 : l = 0
        · rw [if_pos l0] at hr
          exact absurd hr (by simp)
        · rw [if_neg l0] at hr
          have hgv : g = winSum14 (gainAt xs) i / 14 := by
            unfold avgGainAt at hg
            split at hg
            · exact (Option.some.inj hg).symm
            · exact absurd hg (by simp)
          have hlv : l = winSum14 (lossAt xs) i / 14 := by
            unfold avgLossAt at hl
            split at hl
            · exact (Option.some.inj hl).symm
            · exact absurd hl (by simp)
          have hg0 : 0 ≤ g :=
            hgv ▸ div_nonneg (winSum14_nonneg _ i (gainAt_nonneg xs)) (by norm_num)
          have hl0 : 0 ≤ l :=
            hlv ▸ div_nonneg (winSum14_nonneg _ i (lossAt_nonneg xs)) (by norm_num)
          have := Option.some.inj hr
          subst this
          exact div_nonneg hg0 hl0
      unfold rsiAt
      rw [hr]
      have h1r : (0 : ℚ) < 1 + r := by linarith
      constructor
      · have : (100 : ℚ) / (1 + r) ≤ 100 :=
          div_le_self (by norm_num) (by linarith)
        linarith
      · have : (0 : ℚ) < 100 / (1 + r) := div_pos (by norm_num) h1r
        linarith
  · intro i hi
    have hg : avgGainAt xs i = none := by
      unfold avgGainAt
      exact if_neg (fun hcon => absurd hcon.1 (by omega))
    unfold rsiAt rsAt
    rw [hg]
  · intro i hi
    rw [rsiCol, List.getElem?_map, List.getElem?_range hi, Option.map_some']

/-- C4 witness: the amended bound and neutral-prefix rule evaluated on
the alternating series. -/
theorem rsi_bounded_neutral_witness :
    (0 ≤ rsiAt (closes14.map some) 13 ∧ rsiAt (closes14.map some) 13 ≤ 100) ∧
    rsiAt (closes14.map some) 5 = 50 ∧
    (rsiCol (closes14.map some))[13]? = some (some (rsiAt (closes14.map some) 13)) := by
  have h := rsi_bounded_neutral (closes14.map some)
  exact ⟨h.1 13, h.2.1 5 (by decide), h.2.2 13 (by decide)⟩

/-- C6 counterexample: after calling `compute_sma` the caller's
argument is no longer the dataframe that was passed in — the SMA
column has been added to it in place. -/
theorem compute_sma_mutates_cex :
    (compute_sma dfC6 20).map Prod.snd ≠ some dfC6 := by
  intro h
  have heq : upsert dfC6 "SMA" (rollingMeanCol (colVals dfC6 "close") 20) = dfC6 := by
    simpa [compute_sma, show get_close_price_column dfC6 = some "close" from rfl]
      using h
  have hlen := congrArg List.length heq
  simp [upsert, dfC6] at hlen

/-- C6 amended — every indicator call is deterministic (the embedding
is a pure function of the input), but only `add_technical_indicators`
works on a copy and leaves the caller's argument unchanged;
`compute_sma`, `compute_ema` and `volatility_and_risk` annotate the
passed-in dataframe in place, so after the call the argument is the
same object as the returned annotated dataframe. -/
theorem indicator_calls_aliasing (df : Df) (w : ℕ) (sq : ℚ → ℚ) :
    (compute_sma df w).map Prod.snd = (compute_sma df w).map Prod.fst ∧
    (compute_ema df w).map Prod.snd = (compute_ema df w).map Prod.fst ∧
    (volatility_and_risk sq df w).map Prod.snd =
      (volatility_and_risk sq df w).map Prod.fst ∧
    (add_technical_indicators df).map Prod.snd =
      (add_technical_indicators df).map (fun _ => df) := by
  refine ⟨?_, ?_, ?_, ?_⟩
  · rcases h : get_close_price_column df with _ | c <;> simp [compute_sma, h]
  · rcases h : get_close_price_column df with _ | c <;> simp [compute_ema, h]
  · rcases h : get_close_price_column df with _ | c <;> simp [volatility_and_risk, h]
  · by_cases he : df.isEmpty
    · simp [add_technical_indicators, he]
    · rcases h : get_close_price_column df with _ | c <;>
        simp [add_technical_indicators, he, h]

theorem covSum_comm (xs ys : List ℚ) : covSum xs ys = covSum ys xs := by
  unfold covSum
  rw [List.zipWith_comm]
  exact congrArg List.sum (congrArg (fun f => List.zipWith f ys xs)
    (funext fun x => funext fun y => by ring))

theorem zipWith_self_sq_nonneg (m : ℚ) (xs : List ℚ) :
    0 ≤ (List.zipWith (fun a b => (a - m) * (b - m)) xs xs).sum := by
  induction xs with
  | nil => simp
  | cons x t ih =>
    simp only [List.zipWith_cons_cons, List.sum_cons]
    have := mul_self_nonneg (x - m)
    linarith

theorem varSum_nonneg (xs : List ℚ) : 0 ≤ varSum xs :=
  zipWith_self_sq_nonneg (meanQ xs) xs

theorem corrVal_swap (c v1 v2 : ℚ) :
    corrVal (some (c, v1, v2)) = corrVal (some (c, v2, v1)) := by
  by_cases h1 : v1 = 0 <;> by_cases h2 : v2 = 0 <;>
    simp [corrVal, h1, h2, mul_comm]

/-- C7 amended — `correlation_analysis` joins the kept series on the
intersection of their dates (a date survives iff it occurs in every
kept series) and its matrix is symmetric; a diagonal entry equals 1
whenever at least two dates survive the join and the series is not
constant on them (zero variance or a single joined observation makes
the entry `NaN`, as pandas does). -/
theorem correlation_matrix_spec (db : PriceDb) (tickers : List String) :
    (∀ i j, correlation_analysis db tickers i j = correlation_analysis db tickers j i) ∧
    (∀ d : ℤ, keptSeries db tickers ≠ [] →
      (d ∈ commonDates db tickers ↔
        ∀ s ∈ keptSeries db tickers, d ∈ datesOfSeries s)) ∧
    (∀ i si, (keptSeries db tickers)[i]? = some si →
      ¬ (commonDates db tickers).length < 2 →
      varSum (alignedVals si (commonDates db tickers)) ≠ 0 →
      correlation_analysis db tickers i i = some 1) := by
  refine ⟨?_, ?_, ?_⟩
  · intro i j
    rcases hi : (keptSeries db tickers)[i]? with _ | si <;>
      rcases hj : (keptSeries db tickers)[j]? with _ | sj <;>
      simp only [correlation_analysis, corrCell, hi, hj]
    by_cases hlen : (commonDates db tickers).length < 2
    · simp [hlen]
    · simp only [if_neg hlen]
      rw [covSum_comm (alignedVals si (commonDates db tickers))
        (alignedVals sj (commonDates db tickers))]
      exact corrVal_swap _ _ _
  · intro d hne
    rcases hks : keptSeries db tickers with _ | ⟨s, rest⟩
    · exact absurd hks hne
    · simp only [commonDates, hks, List.mem_filter, List.all_eq_true,
        decide_eq_true_eq, List.mem_cons]
      constructor
      · rintro ⟨hd, hall⟩ s' hs'
        rcases hs' with rfl | hs'
        · exact hd
        · exact hall s' hs'
      · intro hall
        exact ⟨hall s (Or.inl rfl), fun s' hs' => hall s' (Or.inr hs')⟩
  · intro i si hi hlen hvar
    simp only [correlation_analysis, corrCell, hi, if_neg hlen]
    have hvv : covSum (alignedVals si (commonDates db tickers))
        (alignedVals si (commonDates db tickers)) =
        varSum (alignedVals si (commonDates db tickers)) := rfl
    rw [hvv]
    set v := varSum (alignedVals si (commonDates db tickers)) with hv
    have hv0 : (0 : ℚ) ≤ v := varSum_nonneg _
    have hvpos : (0 : ℝ) < (v : ℝ) := by
      have : (0 : ℚ) < v := lt_of_le_of_ne hv0 (Ne.symm hvar)
      exact_mod_cast this
    simp only [corrVal, Option.some_bind, hvar, or_self, if_false, if_neg]
    rw [Real.mul_self_sqrt (le_of_lt hvpos), div_self (ne_of_gt hvpos)]

/-- C7 counterexample: tickers "A" and "B" share exactly one common
date, so the joined table has a single row and the diagonal entry is
`NaN` (`none`), not 1 — the claim fails with only one overlapping
date. -/
theorem correlation_single_date_cex :
    commonDates dbC7 ["A", "B"] = [1] ∧
    correlation_analysis dbC7 ["A", "B"] 0 0 ≠ some 1 := by
  refine ⟨by rfl, ?_⟩
  have hcell : corrCell dbC7 ["A", "B"] 0 0 = none := by rfl
  rw [correlation_analysis, hcell]
  simp [corrVal]

/-- C7 witness: on two non-constant series sharing two dates the
amended statement gives symmetry, the intersection-join law, and a
unit diagonal entry. -/
theorem correlation_matrix_spec_witness :
    correlation_analysis dbC7w ["A", "B"] 0 1 =
      correlation_analysis dbC7w ["A", "B"] 1 0 ∧
    ((1 : ℤ) ∈ commonDates dbC7w ["A", "B"] ↔
      ∀ s ∈ keptSeries dbC7w ["A", "B"], (1 : ℤ) ∈ datesOfSeries s) ∧
    correlation_analysis dbC7w ["A", "B"] 0 0 = some 1 := by
  have h := correlation_matrix_spec dbC7w ["A", "B"]
  refine ⟨h.1 0 1, h.2.1 1 (by decide), ?_⟩
  refine h.2.2 0 [(1, 10), (2, 20)] (by rfl) (by decide) ?_
  have hcd : commonDates dbC7w ["A", "B"] = [1, 2] := by rfl
  have hav : alignedVals [(1, 10), (2, 20)] [1, 2] = [10, 20] := by rfl
  rw [hcd, hav]
  norm_num [varSum, covSum, meanQ, List.zipWith_cons_cons]

end StockInsights
